import Mathlib

/-!
# Validation patterns and constants of the `v1alpha1` API types

The two source files declare Kubernetes API types.  The executable content of
these declarations is

* the `+kubebuilder:validation:Pattern` markers of
  `network/v1alpha1/types_dnsnameresolver.go` (regular expressions in RE2
  notation that the API server evaluates on the field value), and
* the string constants of `machineconfiguration/v1alpha1/types_machineosbuild.go`.

The regular expressions are embedded as values of `Regex`, with a matcher by
Brzozowski derivatives (`Regex.accepts`) and a declarative semantics
(`Regex.Matches`) that the matcher is proved to decide.  The validation of a
status item is the conjunction of the markers of its fields.  The update of
the `resolutionFailures` counter, which the sources only document, is
modelled from that documentation.
-/

namespace V1alpha1

/-! ## Regular expressions -/

/-- Abstract form of the RE2 fragment that occurs in the validation markers. -/
inductive Regex where
  /-- Matches no string. -/
  | none : Regex
  /-- Matches the empty string only. -/
  | empty : Regex
  /-- Matches one character of a class (`[A-Z]`, `\*`, `.`, a literal). -/
  | cls : (Char → Bool) → Regex
  /-- Alternation `a|b`. -/
  | alt : Regex → Regex → Regex
  /-- Concatenation `ab`. -/
  | seq : Regex → Regex → Regex
  /-- Repetition `a*`. -/
  | star : Regex → Regex

namespace Regex

/-- A literal character. -/
def chr (c : Char) : Regex := cls (fun d => d == c)

/-- The postfix operator `?`. -/
def opt (r : Regex) : Regex := alt r empty

/-- The postfix operator `+`. -/
def plus (r : Regex) : Regex := seq r (star r)

/-- The counted repetition `{n}`. -/
def rep : Nat → Regex → Regex
  | 0, _ => empty
  | n + 1, r => seq r (rep n r)

/-- The counted repetition `{0,n}`. -/
def upto : Nat → Regex → Regex
  | 0, _ => empty
  | n + 1, r => opt (seq r (upto n r))

/-- The counted repetition `{m,n}` (for `m ≤ n`). -/
def repRange (m n : Nat) (r : Regex) : Regex := seq (rep m r) (upto (n - m) r)

/-- Whether the expression matches the empty string. -/
def nullable : Regex → Bool
  | none => false
  | empty => true
  | cls _ => false
  | alt a b => nullable a || nullable b
  | seq a b => nullable a && nullable b
  | star _ => true

/-- Brzozowski derivative of an expression by one character. -/
def deriv (c : Char) : Regex → Regex
  | none => none
  | empty => none
  | cls p => if p c then empty else none
  | alt a b => alt (deriv c a) (deriv c b)
  | seq a b => if nullable a then alt (seq (deriv c a) b) (deriv c b) else seq (deriv c a) b
  | star a => seq (deriv c a) (star a)

/-- Whole-string match, the meaning of a pattern enclosed in `^` and `$`. -/
def accepts : Regex → List Char → Bool
  | r, [] => nullable r
  | r, c :: cs => accepts (deriv c r) cs

/-- Every character class of the expression lies inside the property `P`. -/
def charsIn (P : Char → Prop) : Regex → Prop
  | none => True
  | empty => True
  | cls p => ∀ c, p c = true → P c
  | alt a b => charsIn P a ∧ charsIn P b
  | seq a b => charsIn P a ∧ charsIn P b
  | star a => charsIn P a

/-- Declarative semantics: the strings of the language of an expression. -/
inductive Matches : Regex → List Char → Prop
  | empty : Matches empty []
  | cls (p : Char → Bool) (c : Char) : p c = true → Matches (cls p) [c]
  | altL (a b : Regex) (s : List Char) : Matches a s → Matches (alt a b) s
  | altR (a b : Regex) (s : List Char) : Matches b s → Matches (alt a b) s
  | seq (a b : Regex) (s t : List Char) : Matches a s → Matches b t → Matches (seq a b) (s ++ t)
  | starNil (a : Regex) : Matches (star a) []
  | starCons (a : Regex) (s t : List Char) :
      Matches a s → Matches (star a) t → Matches (star a) (s ++ t)

end Regex

/-! ## The patterns of `types_dnsnameresolver.go` -/

/-- Character range `lo-hi` of a bracket expression. -/
def inRange (lo hi c : Char) : Bool := decide (lo.toNat ≤ c.toNat) && decide (c.toNat ≤ hi.toNat)

/-- The class `[A-Za-z0-9-]`. -/
def labelChar (c : Char) : Bool :=
  inRange 'A' 'Z' c || inRange 'a' 'z' c || inRange '0' '9' c || c == '-'

/-- The class `[0-9A-Fa-f]`. -/
def hexChar (c : Char) : Bool :=
  inRange '0' '9' c || inRange 'A' 'F' c || inRange 'a' 'f' c

/-- The class `.`: any character but the line feed. -/
def anyChar (c : Char) : Bool := c != '\n'

open Regex in
/-- The part `([A-Za-z0-9-]+\.)*[A-Za-z0-9-]+\.` of the DNS name pattern: one or
more labels, each closed by a dot. -/
def dnsLabelsPattern : Regex :=
  seq (star (seq (plus (cls labelChar)) (chr '.')))
    (seq (plus (cls labelChar)) (chr '.'))

open Regex in
/-- Pattern of `DNSNameResolverSpec.Name` and `DNSNameResolverStatusItem.DNSName`:
`^(\*\.)?([A-Za-z0-9-]+\.)*[A-Za-z0-9-]+\.$`. -/
def dnsNamePattern : Regex :=
  seq (opt (seq (chr '*') (chr '.'))) dnsLabelsPattern

/-- Validation of the `name` and `dnsName` fields against their pattern. -/
def validDNSName (s : String) : Bool := dnsNamePattern.accepts s.toList

/-- The class `[0-5]`, `[0-4]`, `[0-9]`, `[01]`: decimal digits from `lo` to `hi`. -/
def digitRange (lo hi : Char) : Regex := Regex.cls (inRange lo hi)

open Regex in
/-- One octet of the dotted quad: `25[0-5]|2[0-4][0-9]|[01]?[0-9][0-9]?`. -/
def octetPattern : Regex :=
  alt (seq (chr '2') (seq (chr '5') (digitRange '0' '5')))
    (alt (seq (chr '2') (seq (digitRange '0' '4') (digitRange '0' '9')))
      (seq (opt (digitRange '0' '1')) (seq (digitRange '0' '9') (opt (digitRange '0' '9')))))

open Regex in
/-- First alternative of the `IPAddressStr` pattern, between `^` and `$`:
`(?:(?:25[0-5]|2[0-4][0-9]|[01]?[0-9][0-9]?)\.){3}(?:25[0-5]|2[0-4][0-9]|[01]?[0-9][0-9]?)`. -/
def ipv4Pattern : Regex :=
  seq (rep 3 (seq octetPattern (chr '.'))) octetPattern

/-- The group `[0-9A-Fa-f]{1,4}`. -/
def hexGroup : Regex := Regex.repRange 1 4 (Regex.cls hexChar)

/-- The group `([0-9A-Fa-f]{1,4}:)`. -/
def hexColon : Regex := Regex.seq hexGroup (Regex.chr ':')

/-- The group `(:[0-9A-Fa-f]{1,4})`. -/
def colonHex : Regex := Regex.seq (Regex.chr ':') hexGroup

open Regex in
/-- The alternatives `(([0-9A-Fa-f]{1,4}:){n}(((:[0-9A-Fa-f]{1,4}){0,k}):([0-9A-Fa-f]{1,4})?))`
of the `IPAddressStr` pattern, which occur for `(n, k)` from `(5, 1)` to `(1, 5)`. -/
def ipv6Middle (n k : Nat) : Regex :=
  seq (rep n hexColon) (seq (repRange 0 k colonHex) (seq (chr ':') (opt hexGroup)))

open Regex in
/-- The eight alternatives of the parenthesis that follows `^s*` in the
`IPAddressStr` pattern. -/
def ipv6Body : Regex :=
  alt (seq (rep 7 hexColon) (alt (chr ':') hexGroup))
    (alt (seq (rep 6 hexColon) (seq (chr ':') (opt hexGroup)))
      (alt (ipv6Middle 5 1)
        (alt (ipv6Middle 4 2)
          (alt (ipv6Middle 3 3)
            (alt (ipv6Middle 2 4)
              (alt (ipv6Middle 1 5)
                (seq (chr ':') (alt (chr ':') (repRange 1 7 colonHex)))))))))

open Regex in
/-- Second alternative of the `IPAddressStr` pattern, between `^` and `$`:
`s*(...)(%.+)?s*`.  The source writes `s*`, a run of the letter `s`. -/
def ipv6Pattern : Regex :=
  seq (star (chr 's'))
    (seq ipv6Body
      (seq (opt (seq (chr '%') (plus (cls anyChar))))
        (star (chr 's'))))

/-- Pattern of `IPAddressStr`.  Both alternatives of the top-level `|` are
enclosed in `^` and `$`, so a value is accepted when it matches one of them as
a whole. -/
def ipAddressPattern : Regex := Regex.alt ipv4Pattern ipv6Pattern

/-- Validation of an `IPAddressStr` value against its pattern. -/
def validIPAddressStr (s : String) : Bool := ipAddressPattern.accepts s.toList

/-! ## Well-formed IP addresses

The text forms against which the `IPAddressStr` pattern is compared: the dotted
quad of IPv4 and the forms of RFC 4291, section 2.2, of IPv6. -/

/-- Splits a string at every occurrence of the separator. -/
def splitOn (sep : Char) : List Char → List (List Char)
  | [] => [[]]
  | c :: cs =>
    if c = sep then [] :: splitOn sep cs
    else
      match splitOn sep cs with
      | [] => [[c]]
      | g :: gs => (c :: g) :: gs

/-- Value of a string of decimal digits. -/
def decimalValue (ds : List Char) : Nat :=
  ds.foldl (fun n d => 10 * n + (d.toNat - '0'.toNat)) 0

/-- A decimal octet: one to three decimal digits of value 0 to 255. -/
def isDecimalOctet (g : List Char) : Bool :=
  decide (1 ≤ g.length) && decide (g.length ≤ 3) && g.all (inRange '0' '9') &&
    decide (decimalValue g ≤ 255)

/-- Well-formed IPv4 dotted quad: four decimal octets, each in 0..255, separated
by dots, and nothing else. -/
def isIPv4DottedQuad (s : List Char) : Bool :=
  match splitOn '.' s with
  | [a, b, c, d] => isDecimalOctet a && isDecimalOctet b && isDecimalOctet c && isDecimalOctet d
  | _ => false

/-- One 16-bit piece of an IPv6 address: one to four hexadecimal digits. -/
def isHexPiece (g : List Char) : Bool :=
  decide (1 ≤ g.length) && decide (g.length ≤ 4) && g.all hexChar

/-- Number of 16-bit pieces written by a colon-separated run of pieces, zero
for the empty run; with `v4`, the last piece may be a dotted quad, which
stands for two pieces. -/
def pieceCount (v4 : Bool) (s : List Char) : Option Nat :=
  match s with
  | [] => some 0
  | _ :: _ =>
    let gs := splitOn ':' s
    if gs.dropLast.all isHexPiece then
      if isHexPiece (gs.getLastD []) then some gs.length
      else if v4 && isIPv4DottedQuad (gs.getLastD []) then some (gs.length + 1)
      else Option.none
    else Option.none

/-- Splits a string around its first `::`. -/
def splitDoubleColon : List Char → Option (List Char × List Char)
  | [] => Option.none
  | c :: cs =>
    if c = ':' ∧ cs.head? = some ':' then some ([], cs.drop 1)
    else (splitDoubleColon cs).map (fun ab => (c :: ab.1, ab.2))

/-- Well-formed IPv6 address in the text forms of RFC 4291, section 2.2: eight
colon-separated pieces, or fewer with one `::` in place of the missing ones,
the last two pieces possibly written as a dotted quad; and nothing else. -/
def isIPv6Address (s : List Char) : Bool :=
  match splitDoubleColon s with
  | Option.none => pieceCount true s == some 8
  | some (a, b) =>
    match pieceCount false a, pieceCount true b with
    | some m, some n => decide (m + n ≤ 7)
    | _, _ => false

/-! ## The counter of `DNSNameResolverStatusItem` -/

/-- Value of an `int32` after an arithmetic operation (two's complement). -/
def wrapInt32 (x : Int) : Int := (x + 2147483648) % 4294967296 - 2147483648

/-- Entry of `resolvedAddresses`: `ip`, `ttlSeconds` (int32) and `lastLookupTime`
(seconds, absent when nil). -/
structure DNSNameResolverInfo where
  ip : String
  ttlSeconds : Int
  lastLookupTime : Option Int

/-- Entry of `status.resolvedNames`: `dnsName`, `resolvedAddresses` and
`resolutionFailures` (int32); the conditions are left out. -/
structure DNSNameResolverStatusItem where
  dnsName : String
  resolvedAddresses : List DNSNameResolverInfo
  resolutionFailures : Int

/-- Result of one DNS lookup for the name of a status item. -/
inductive Resolution where
  | succeeded : Resolution
  | failed : Resolution

/-- Modelled from the spec: the controller that writes `status.resolvedNames` is
not among the sources, which only declare the field.  This follows the
documentation of `resolutionFailures`: a successful resolution sets the field
to zero, a failure increments it by one, and on reaching 5 the details about
the DNS name are removed (`none`). -/
def recordResolution (item : DNSNameResolverStatusItem) :
    Resolution → Option DNSNameResolverStatusItem
  | Resolution.succeeded => some { item with resolutionFailures := 0 }
  | Resolution.failed =>
    let n := wrapInt32 (item.resolutionFailures + 1)
    if n = 5 then Option.none else some { item with resolutionFailures := n }

/-- Modelled from the spec: the stored item after a sequence of lookups, `none`
once it has been removed. -/
def recordResolutions : Option DNSNameResolverStatusItem → List Resolution →
    Option DNSNameResolverStatusItem
  | st, [] => st
  | Option.none, _ :: _ => Option.none
  | some item, r :: rs => recordResolutions (recordResolution item r) rs

/-- Modelled from the spec: the controller that adds an item to
`status.resolvedNames` is not among the sources.  By the documentation of
`dnsName` the name is stored after it has been successfully resolved, and by
that of `resolutionFailures` a successful resolution sets the field to zero. -/
def storeResolved (dnsName : String) (addresses : List DNSNameResolverInfo) :
    DNSNameResolverStatusItem :=
  { dnsName := dnsName, resolvedAddresses := addresses, resolutionFailures := 0 }

/-- The values of the Go type `int32`. -/
def isInt32 (x : Int) : Bool := decide (-2147483648 ≤ x) && decide (x ≤ 2147483647)

/-- Validation that the markers of `DNSNameResolverInfo` declare: `ip` matches
the `IPAddressStr` pattern, `ttlSeconds` is an `int32`, and `lastLookupTime` is
required. -/
def validResolverInfo (e : DNSNameResolverInfo) : Bool :=
  validIPAddressStr e.ip && isInt32 e.ttlSeconds && e.lastLookupTime.isSome

/-- Validation that the markers of `DNSNameResolverStatusItem` declare: `dnsName`
matches its pattern and has at most 254 characters, `resolvedAddresses` is a
list of valid entries with `ip` as its key, and `resolutionFailures` is an
`int32`; the field carries no other marker. -/
def validStatusItem (item : DNSNameResolverStatusItem) : Bool :=
  validDNSName item.dnsName && decide (item.dnsName.length ≤ 254) &&
    item.resolvedAddresses.all validResolverInfo &&
    decide ((item.resolvedAddresses.map (fun e => e.ip)).Nodup) &&
    isInt32 item.resolutionFailures

/-! ## The constants of `types_machineosbuild.go` -/

/-- The Go type `BuildProgress`, a string. -/
abbrev BuildProgress := String

/-- The constant `MachineOSBuildPrepared`. -/
def MachineOSBuildPrepared : BuildProgress := "Prepared"

/-- The constant `MachineOSBuiling`. -/
def MachineOSBuiling : BuildProgress := "Building"

/-- The constant `MachineOSBuildFailed`. -/
def MachineOSBuildFailed : BuildProgress := "Failed"

/-- The constant `MachineOSBuildInterrupted`. -/
def MachineOSBuildInterrupted : BuildProgress := "Interrupted"

/-- The constant `MachineOSBuildRestarted`. -/
def MachineOSBuildRestarted : BuildProgress := "Restarted"

/-- The constant `MachineOSReady`. -/
def MachineOSReady : BuildProgress := "Ready"

/-- The `BuildProgress` constants in the order of their declaration. -/
def buildProgressConstants : List BuildProgress :=
  [MachineOSBuildPrepared, MachineOSBuiling, MachineOSBuildFailed, MachineOSBuildInterrupted,
    MachineOSBuildRestarted, MachineOSReady]

/-- The condition types that the documentation of `MachineOSBuildStatus.Conditions`
lists as valid. -/
def validConditionTypes : List String :=
  ["BuildPrepared", "Building", "BuildFailed", "BuildInterrupted", "BuildRestarted", "Ready"]

end V1alpha1

/-! ## The matcher decides the declarative semantics -/

namespace V1alpha1

namespace Regex

theorem matches_none_iff (s : List Char) : Matches none s ↔ False := by
  constructor
  · intro h; cases h
  · intro h; exact h.elim

theorem matches_empty_iff (s : List Char) : Matches empty s ↔ s = [] := by
  constructor
  · intro h; cases h; rfl
  · rintro rfl; exact Matches.empty

theorem matches_cls_iff (p : Char → Bool) (s : List Char) :
    Matches (cls p) s ↔ ∃ c, p c = true ∧ s = [c] := by
  constructor
  · intro h; cases h with
    | cls _ c hc => exact ⟨c, hc, rfl⟩
  · rintro ⟨c, hc, rfl⟩; exact Matches.cls p c hc

theorem matches_alt_iff (a b : Regex) (s : List Char) :
    Matches (alt a b) s ↔ Matches a s ∨ Matches b s := by
  constructor
  · intro h; cases h with
    | altL _ _ _ h => exact Or.inl h
    | altR _ _ _ h => exact Or.inr h
  · rintro (h | h)
    · exact Matches.altL a b s h
    · exact Matches.altR a b s h

theorem matches_seq_iff (a b : Regex) (s : List Char) :
    Matches (seq a b) s ↔ ∃ t u, s = t ++ u ∧ Matches a t ∧ Matches b u := by
  constructor
  · intro h; cases h with
    | seq _ _ t u ha hb => exact ⟨t, u, rfl, ha, hb⟩
  · rintro ⟨t, u, rfl, ha, hb⟩; exact Matches.seq a b t u ha hb

/-- A match of `a*` is empty or starts with a non-empty match of `a`. -/
theorem matches_star_cases (a : Regex) (s : List Char) (h : Matches (star a) s) :
    s = [] ∨ ∃ c t u, s = c :: t ++ u ∧ Matches a (c :: t) ∧ Matches (star a) u := by
  generalize hr : star a = r at h
  induction h with
  | empty => exact Or.inl rfl
  | cls p c hc => cases hr
  | altL _ _ _ _ _ => cases hr
  | altR _ _ _ _ _ => cases hr
  | seq _ _ _ _ _ _ _ _ => cases hr
  | starNil _ => exact Or.inl rfl
  | starCons a0 t u ha hu _ ihu =>
    cases hr
    cases t with
    | nil => simpa using ihu rfl
    | cons c t => exact Or.inr ⟨c, t, u, rfl, ha, hu⟩

theorem matches_star_cons_iff (a : Regex) (c : Char) (s : List Char) :
    Matches (star a) (c :: s) ↔
      ∃ t u, s = t ++ u ∧ Matches a (c :: t) ∧ Matches (star a) u := by
  constructor
  · intro h
    rcases matches_star_cases a _ h with h0 | ⟨d, t, u, hs, ha, hu⟩
    · cases h0
    · simp only [List.cons_append, List.cons.injEq] at hs
      obtain ⟨rfl, rfl⟩ := hs
      exact ⟨t, u, rfl, ha, hu⟩
  · rintro ⟨t, u, rfl, ha, hu⟩
    exact Matches.starCons a (c :: t) u ha hu

theorem nullable_iff (r : Regex) : nullable r = true ↔ Matches r [] := by
  induction r with
  | none => simp [nullable, matches_none_iff]
  | empty => simp [nullable, matches_empty_iff]
  | cls p => simp [nullable, matches_cls_iff]
  | alt a b iha ihb => simp [nullable, matches_alt_iff, iha, ihb]
  | seq a b iha ihb =>
    simp only [nullable, Bool.and_eq_true, iha, ihb, matches_seq_iff]
    constructor
    · rintro ⟨ha, hb⟩; exact ⟨[], [], rfl, ha, hb⟩
    · rintro ⟨t, u, h, ha, hb⟩
      obtain ⟨rfl, rfl⟩ := List.append_eq_nil.1 h.symm
      exact ⟨ha, hb⟩
  | star a _ => simp only [nullable, true_iff]; exact Matches.starNil a

theorem matches_deriv_iff (c : Char) (r : Regex) (s : List Char) :
    Matches (deriv c r) s ↔ Matches r (c :: s) := by
  induction r generalizing s with
  | none => simp [deriv, matches_none_iff]
  | empty => simp [deriv, matches_none_iff, matches_empty_iff]
  | cls p =>
    simp only [deriv, matches_cls_iff, List.cons.injEq]
    cases hp : p c with
    | true =>
      simp only [if_true, matches_empty_iff]
      constructor
      · rintro rfl; exact ⟨c, hp, rfl, rfl⟩
      · rintro ⟨d, _, _, hs⟩; exact hs
    | false =>
      simp only [Bool.false_eq_true, if_false, matches_none_iff, false_iff]
      rintro ⟨d, hd, rfl, _⟩
      rw [hp] at hd
      exact Bool.false_ne_true hd
  | alt a b iha ihb => simp only [deriv, matches_alt_iff, iha, ihb]
  | seq a b iha ihb =>
    have key : Matches (seq a b) (c :: s) ↔
        (∃ t u, s = t ++ u ∧ Matches a (c :: t) ∧ Matches b u) ∨
          (Matches a [] ∧ Matches b (c :: s)) := by
      rw [matches_seq_iff]
      constructor
      · rintro ⟨t, u, h, ha, hb⟩
        cases t with
        | nil => simp only [List.nil_append] at h; subst h; exact Or.inr ⟨ha, hb⟩
        | cons d t =>
          simp only [List.cons_append, List.cons.injEq] at h
          obtain ⟨rfl, rfl⟩ := h
          exact Or.inl ⟨t, u, rfl, ha, hb⟩
      · rintro (⟨t, u, rfl, ha, hb⟩ | ⟨ha, hb⟩)
        · exact ⟨c :: t, u, rfl, ha, hb⟩
        · exact ⟨[], c :: s, rfl, ha, hb⟩
    rw [key]
    clear key
    simp only [deriv]
    cases hn : nullable a with
    | true =>
      have ha0 := (nullable_iff a).1 hn
      simp only [if_true, matches_alt_iff, matches_seq_iff, iha, ihb]
      constructor
      · rintro (h | h)
        · exact Or.inl h
        · exact Or.inr ⟨ha0, h⟩
      · rintro (h | ⟨_, h⟩)
        · exact Or.inl h
        · exact Or.inr h
    | false =>
      have ha0 : ¬ Matches a [] := fun h => by
        rw [(nullable_iff a).2 h] at hn
        exact Bool.false_ne_true hn.symm
      simp only [Bool.false_eq_true, if_false, matches_seq_iff, iha]
      constructor
      · intro h; exact Or.inl h
      · rintro (h | ⟨h, _⟩)
        · exact h
        · exact (ha0 h).elim
  | star a iha =>
    simp only [deriv, matches_seq_iff, iha, matches_star_cons_iff]

/-- The derivative matcher accepts exactly the strings of the language. -/
theorem accepts_iff_matches (r : Regex) (s : List Char) :
    accepts r s = true ↔ Matches r s := by
  induction s generalizing r with
  | nil => simpa [accepts] using nullable_iff r
  | cons c s ih => rw [accepts, ih, matches_deriv_iff]

/-- A matched string only has characters of the classes of the expression. -/
theorem Matches.forall_mem_of_charsIn {P : Char → Prop} {r : Regex} {s : List Char}
    (h : Matches r s) (hr : charsIn P r) : ∀ c ∈ s, P c := by
  induction h with
  | empty => intro c hc; cases hc
  | cls p c hp =>
    intro d hd
    rw [List.mem_singleton] at hd
    subst hd
    exact hr d hp
  | altL a b s _ ih => exact ih hr.1
  | altR a b s _ ih => exact ih hr.2
  | seq a b s t _ _ iha ihb =>
    intro c hc
    rcases List.mem_append.1 hc with hc | hc
    · exact iha hr.1 c hc
    · exact ihb hr.2 c hc
  | starNil a => intro c hc; cases hc
  | starCons a s t _ _ iha iht =>
    intro c hc
    rcases List.mem_append.1 hc with hc | hc
    · exact iha hr c hc
    · exact iht hr c hc

theorem matches_chr_iff (c : Char) (s : List Char) : Matches (chr c) s ↔ s = [c] := by
  unfold chr
  rw [matches_cls_iff]
  constructor
  · rintro ⟨d, hd, rfl⟩
    rw [beq_iff_eq] at hd
    rw [hd]
  · rintro rfl
    exact ⟨c, beq_self_eq_true c, rfl⟩

theorem matches_opt_iff (r : Regex) (s : List Char) : Matches (opt r) s ↔ Matches r s ∨ s = [] := by
  unfold opt
  rw [matches_alt_iff, matches_empty_iff]

end Regex

end V1alpha1

/-! ## The DNS name pattern -/

namespace V1alpha1

theorem labelChar_ne_star (c : Char) (h : labelChar c = true) : c ≠ '*' := by
  rintro rfl
  exact absurd h (by decide)

theorem charsIn_dnsLabelsPattern : Regex.charsIn (fun c => c ≠ '*') dnsLabelsPattern := by
  have hdot : ∀ c : Char, (c == '.') = true → c ≠ '*' := by
    intro c hc
    rw [beq_iff_eq] at hc
    subst hc
    decide
  exact ⟨⟨⟨labelChar_ne_star, labelChar_ne_star⟩, hdot⟩, ⟨labelChar_ne_star, labelChar_ne_star⟩, hdot⟩

/-- The accepted names are the label sequences and the label sequences behind
one leading `*.`. -/
theorem matches_dnsNamePattern_iff (l : List Char) :
    Regex.Matches dnsNamePattern l ↔
      Regex.Matches dnsLabelsPattern l ∨
        ∃ t, l = '*' :: '.' :: t ∧ Regex.Matches dnsLabelsPattern t := by
  unfold dnsNamePattern
  rw [Regex.matches_seq_iff]
  constructor
  · rintro ⟨p, t, rfl, hp, ht⟩
    rw [Regex.matches_opt_iff, Regex.matches_seq_iff] at hp
    rcases hp with ⟨a, b, rfl, ha, hb⟩ | rfl
    · rw [Regex.matches_chr_iff] at ha hb
      subst ha hb
      exact Or.inr ⟨t, rfl, ht⟩
    · exact Or.inl ht
  · rintro (h | ⟨t, rfl, ht⟩)
    · exact ⟨[], l, rfl, (Regex.matches_opt_iff _ _).2 (Or.inr rfl), h⟩
    · refine ⟨['*', '.'], t, rfl, (Regex.matches_opt_iff _ _).2 (Or.inl ?_), ht⟩
      exact Regex.Matches.seq _ _ ['*'] ['.'] ((Regex.matches_chr_iff _ _).2 rfl)
        ((Regex.matches_chr_iff _ _).2 rfl)

theorem star_not_mem_of_matches_dnsLabelsPattern (t : List Char)
    (h : Regex.Matches dnsLabelsPattern t) : '*' ∉ t :=
  fun hm => h.forall_mem_of_charsIn charsIn_dnsLabelsPattern '*' hm rfl

/-- C1: in every string accepted by the pattern of `DNSNameResolverSpec.Name`
(and of `DNSNameResolverStatusItem.DNSName`) the character `*` occurs at most
once, and when it occurs the string is `*.` followed by a name without `*`
that the label part of the pattern accepts, so `*` is the whole first label. -/
theorem validDNSName_wildcard_leading_label (s : String) (h : validDNSName s = true) :
    s.toList.count '*' ≤ 1 ∧
      ('*' ∈ s.toList →
        ∃ t, s.toList = '*' :: '.' :: t ∧ '*' ∉ t ∧ dnsLabelsPattern.accepts t = true) := by
  unfold validDNSName at h
  rw [Regex.accepts_iff_matches, matches_dnsNamePattern_iff] at h
  rcases h with h | ⟨t, hs, ht⟩
  · have hn := star_not_mem_of_matches_dnsLabelsPattern _ h
    exact ⟨by rw [List.count_eq_zero_of_not_mem hn]; exact Nat.zero_le 1, fun hm => (hn hm).elim⟩
  · have hn := star_not_mem_of_matches_dnsLabelsPattern _ ht
    refine ⟨?_, fun _ => ⟨t, hs, hn, (Regex.accepts_iff_matches _ _).2 ht⟩⟩
    rw [hs, List.count_cons_self, List.count_cons_of_ne (by decide),
      List.count_eq_zero_of_not_mem hn]

/-- C1, at the wildcard name of the field documentation. -/
theorem validDNSName_wildcard_leading_label_witness :
    validDNSName "*.example.com." = true ∧
      ("*.example.com.".toList.count '*' ≤ 1 ∧
        ('*' ∈ "*.example.com.".toList →
          ∃ t, "*.example.com.".toList = '*' :: '.' :: t ∧ '*' ∉ t ∧
            dnsLabelsPattern.accepts t = true)) :=
  ⟨by decide, validDNSName_wildcard_leading_label "*.example.com." (by decide)⟩

end V1alpha1

/-! ## The `IPAddressStr` pattern -/

namespace V1alpha1

theorem char_eq_of_toNat_eq {a b : Char} (h : a.toNat = b.toNat) : a = b := by
  rw [← Char.ofNat_toNat a, ← Char.ofNat_toNat b, h]

theorem splitOn_ne_nil (sep : Char) (l : List Char) : splitOn sep l ≠ [] := by
  cases l with
  | nil => simp [splitOn]
  | cons c cs =>
    simp only [splitOn]
    split
    · simp
    · split <;> simp

theorem splitOn_of_not_mem (sep : Char) (a : List Char) (h : sep ∉ a) : splitOn sep a = [a] := by
  induction a with
  | nil => rfl
  | cons c a ih =>
    have hc : c ≠ sep := fun e => h (e ▸ List.mem_cons_self _ _)
    have ha : sep ∉ a := fun e => h (List.mem_cons_of_mem _ e)
    simp only [splitOn, if_neg hc, ih ha]

theorem splitOn_append_sep (sep : Char) (a rest : List Char) (h : sep ∉ a) :
    splitOn sep (a ++ sep :: rest) = a :: splitOn sep rest := by
  induction a with
  | nil => simp [splitOn]
  | cons c a ih =>
    have hc : c ≠ sep := fun e => h (e ▸ List.mem_cons_self _ _)
    have ha : sep ∉ a := fun e => h (List.mem_cons_of_mem _ e)
    rw [List.cons_append, splitOn, if_neg hc, ih ha]

theorem splitOn_cons_inv (sep : Char) (l g : List Char) (gs : List (List Char))
    (h : splitOn sep l = g :: gs) :
    sep ∉ g ∧ ((gs = [] ∧ l = g) ∨ ∃ rest, l = g ++ sep :: rest ∧ splitOn sep rest = gs) := by
  induction l generalizing g gs with
  | nil =>
    simp only [splitOn, List.cons.injEq] at h
    obtain ⟨rfl, rfl⟩ := h
    exact ⟨List.not_mem_nil _, Or.inl ⟨rfl, rfl⟩⟩
  | cons c cs ih =>
    simp only [splitOn] at h
    by_cases hc : c = sep
    · rw [if_pos hc] at h
      simp only [List.cons.injEq] at h
      obtain ⟨rfl, rfl⟩ := h
      exact ⟨List.not_mem_nil _, Or.inr ⟨cs, by rw [hc]; rfl, rfl⟩⟩
    · rw [if_neg hc] at h
      cases hs : splitOn sep cs with
      | nil => exact absurd hs (splitOn_ne_nil sep cs)
      | cons g1 gs1 =>
        rw [hs] at h
        simp only [List.cons.injEq] at h
        obtain ⟨rfl, rfl⟩ := h
        obtain ⟨hg, hrest⟩ := ih g1 gs1 hs
        refine ⟨?_, ?_⟩
        · intro hm
          rcases List.mem_cons.1 hm with e | e
          · exact hc e.symm
          · exact hg e
        · rcases hrest with ⟨rfl, rfl⟩ | ⟨rest, rfl, hr⟩
          · exact Or.inl ⟨rfl, rfl⟩
          · exact Or.inr ⟨rest, rfl, hr⟩

theorem inRange_iff (lo hi c : Char) :
    inRange lo hi c = true ↔ lo.toNat ≤ c.toNat ∧ c.toNat ≤ hi.toNat := by
  simp [inRange]

theorem matches_digitRange_iff (lo hi : Char) (s : List Char) :
    Regex.Matches (digitRange lo hi) s ↔ ∃ c, (lo.toNat ≤ c.toNat ∧ c.toNat ≤ hi.toNat) ∧ s = [c] := by
  unfold digitRange
  rw [Regex.matches_cls_iff]
  simp only [inRange_iff]

/-- The strings of the octet alternative, written out. -/
theorem matches_octetPattern_iff (g : List Char) :
    Regex.Matches octetPattern g ↔
      (∃ x, (48 ≤ x.toNat ∧ x.toNat ≤ 53) ∧ g = ['2', '5', x]) ∨
      (∃ x y, (48 ≤ x.toNat ∧ x.toNat ≤ 52) ∧ (48 ≤ y.toNat ∧ y.toNat ≤ 57) ∧ g = ['2', x, y]) ∨
      (∃ x, (48 ≤ x.toNat ∧ x.toNat ≤ 57) ∧ g = [x]) ∨
      (∃ x y, (48 ≤ x.toNat ∧ x.toNat ≤ 57) ∧ (48 ≤ y.toNat ∧ y.toNat ≤ 57) ∧ g = [x, y]) ∨
      (∃ x y z, (48 ≤ x.toNat ∧ x.toNat ≤ 49) ∧ (48 ≤ y.toNat ∧ y.toNat ≤ 57) ∧
        (48 ≤ z.toNat ∧ z.toNat ≤ 57) ∧ g = [x, y, z]) := by
  unfold octetPattern
  simp only [Regex.matches_alt_iff, Regex.matches_seq_iff, Regex.matches_chr_iff,
    Regex.matches_opt_iff, matches_digitRange_iff, show ('0' : Char).toNat = 48 from rfl,
    show ('1' : Char).toNat = 49 from rfl, show ('4' : Char).toNat = 52 from rfl,
    show ('5' : Char).toNat = 53 from rfl, show ('9' : Char).toNat = 57 from rfl]
  constructor
  · rintro (⟨t, u, rfl, rfl, t1, u1, rfl, rfl, x, hx, rfl⟩ |
      ⟨t, u, rfl, rfl, t1, u1, rfl, ⟨x, hx, rfl⟩, y, hy, rfl⟩ |
      ⟨t, u, rfl, (⟨a, ha, rfl⟩ | rfl), t1, u1, rfl, ⟨x, hx, rfl⟩, (⟨y, hy, rfl⟩ | rfl)⟩)
    · exact Or.inl ⟨x, hx, rfl⟩
    · exact Or.inr (Or.inl ⟨x, y, hx, hy, rfl⟩)
    · exact Or.inr (Or.inr (Or.inr (Or.inr ⟨a, x, y, ha, hx, hy, rfl⟩)))
    · exact Or.inr (Or.inr (Or.inr (Or.inl ⟨a, x, ⟨ha.1, by omega⟩, hx, rfl⟩)))
    · exact Or.inr (Or.inr (Or.inr (Or.inl ⟨x, y, hx, hy, rfl⟩)))
    · exact Or.inr (Or.inr (Or.inl ⟨x, hx, rfl⟩))
  · rintro (⟨x, hx, rfl⟩ | ⟨x, y, hx, hy, rfl⟩ | ⟨x, hx, rfl⟩ | ⟨x, y, hx, hy, rfl⟩ |
      ⟨x, y, z, hx, hy, hz, rfl⟩)
    · exact Or.inl ⟨['2'], ['5', x], rfl, rfl, ['5'], [x], rfl, rfl, x, hx, rfl⟩
    · exact Or.inr (Or.inl ⟨['2'], [x, y], rfl, rfl, [x], [y], rfl, ⟨x, hx, rfl⟩, y, hy, rfl⟩)
    · exact Or.inr (Or.inr ⟨[], [x], rfl, Or.inr rfl, [x], [], rfl, ⟨x, hx, rfl⟩, Or.inr rfl⟩)
    · exact Or.inr (Or.inr ⟨[], [x, y], rfl, Or.inr rfl, [x], [y], rfl, ⟨x, hx, rfl⟩,
        Or.inl ⟨y, hy, rfl⟩⟩)
    · exact Or.inr (Or.inr ⟨[x], [y, z], rfl, Or.inl ⟨x, hx, rfl⟩, [y], [z], rfl, ⟨y, hy, rfl⟩,
        Or.inl ⟨z, hz, rfl⟩⟩)

theorem decimalValue_one (x : Char) : decimalValue [x] = x.toNat - 48 := by
  simp [decimalValue, show ('0' : Char).toNat = 48 from rfl]

theorem decimalValue_two (x y : Char) :
    decimalValue [x, y] = 10 * (x.toNat - 48) + (y.toNat - 48) := by
  simp [decimalValue, show ('0' : Char).toNat = 48 from rfl]

theorem decimalValue_three (x y z : Char) :
    decimalValue [x, y, z] = 10 * (10 * (x.toNat - 48) + (y.toNat - 48)) + (z.toNat - 48) := by
  simp [decimalValue, show ('0' : Char).toNat = 48 from rfl]

theorem isDecimalOctet_iff (g : List Char) :
    isDecimalOctet g = true ↔
      (1 ≤ g.length ∧ g.length ≤ 3) ∧ (∀ c ∈ g, 48 ≤ c.toNat ∧ c.toNat ≤ 57) ∧
        decimalValue g ≤ 255 := by
  simp only [isDecimalOctet, Bool.and_eq_true, decide_eq_true_eq, List.all_eq_true, inRange_iff,
    show ('0' : Char).toNat = 48 from rfl, show ('9' : Char).toNat = 57 from rfl, and_assoc]

/-- The octet alternative accepts the decimal octets and nothing else. -/
theorem matches_octetPattern_iff_isDecimalOctet (g : List Char) :
    Regex.Matches octetPattern g ↔ isDecimalOctet g = true := by
  rw [matches_octetPattern_iff, isDecimalOctet_iff]
  constructor
  · rintro (⟨x, hx, rfl⟩ | ⟨x, y, hx, hy, rfl⟩ | ⟨x, hx, rfl⟩ | ⟨x, y, hx, hy, rfl⟩ |
      ⟨x, y, z, hx, hy, hz, rfl⟩)
    · refine ⟨by simp, ?_, ?_⟩
      · simp only [List.mem_cons, List.mem_singleton, List.not_mem_nil, or_false]
        rintro c (rfl | rfl | rfl)
        · decide
        · decide
        · omega
      · rw [decimalValue_three, show ('2' : Char).toNat = 50 from rfl,
          show ('5' : Char).toNat = 53 from rfl]
        omega
    · refine ⟨by simp, ?_, ?_⟩
      · simp only [List.mem_cons, List.mem_singleton, List.not_mem_nil, or_false]
        rintro c (rfl | rfl | rfl)
        · decide
        · omega
        · omega
      · rw [decimalValue_three, show ('2' : Char).toNat = 50 from rfl]
        omega
    · refine ⟨by simp, ?_, ?_⟩
      · simp only [List.mem_singleton]
        rintro c rfl
        exact hx
      · rw [decimalValue_one]
        omega
    · refine ⟨by simp, ?_, ?_⟩
      · simp only [List.mem_cons, List.mem_singleton, List.not_mem_nil, or_false]
        rintro c (rfl | rfl)
        · exact hx
        · exact hy
      · rw [decimalValue_two]
        omega
    · refine ⟨by simp, ?_, ?_⟩
      · simp only [List.mem_cons, List.mem_singleton, List.not_mem_nil, or_false]
        rintro c (rfl | rfl | rfl)
        · omega
        · exact hy
        · exact hz
      · rw [decimalValue_three]
        omega
  · rintro ⟨⟨hl1, hl3⟩, hd, hv⟩
    match g, hl1, hl3, hd, hv with
    | [x], _, _, hd, _ => exact Or.inr (Or.inr (Or.inl ⟨x, hd x (List.mem_singleton_self x), rfl⟩))
    | [x, y], _, _, hd, _ =>
      exact Or.inr (Or.inr (Or.inr (Or.inl ⟨x, y, hd x (by simp), hd y (by simp), rfl⟩)))
    | [x, y, z], _, _, hd, hv =>
      have hx := hd x (by simp)
      have hy := hd y (by simp)
      have hz := hd z (by simp)
      rw [decimalValue_three] at hv
      by_cases h1 : x.toNat ≤ 49
      · exact Or.inr (Or.inr (Or.inr (Or.inr ⟨x, y, z, ⟨hx.1, h1⟩, hy, hz, rfl⟩)))
      · have ex : x = '2' := char_eq_of_toNat_eq (by
          rw [show ('2' : Char).toNat = 50 from rfl]; omega)
        subst ex
        by_cases h2 : y.toNat ≤ 52
        · exact Or.inr (Or.inl ⟨y, z, ⟨hy.1, h2⟩, hz, rfl⟩)
        · have ey : y = '5' := char_eq_of_toNat_eq (by
            rw [show ('5' : Char).toNat = 53 from rfl]
            rw [show ('2' : Char).toNat = 50 from rfl] at hv
            omega)
          subst ey
          refine Or.inl ⟨z, ⟨hz.1, ?_⟩, rfl⟩
          rw [show ('2' : Char).toNat = 50 from rfl, show ('5' : Char).toNat = 53 from rfl] at hv
          omega

theorem dot_not_mem_of_isDecimalOctet (g : List Char) (h : isDecimalOctet g = true) :
    '.' ∉ g := by
  intro hm
  have := ((isDecimalOctet_iff g).1 h).2.1 '.' hm
  rw [show ('.' : Char).toNat = 46 from rfl] at this
  omega

/-- The strings of the dotted-quad alternative, written out. -/
theorem matches_ipv4Pattern_iff (l : List Char) :
    Regex.Matches ipv4Pattern l ↔
      ∃ a b c d, l = a ++ '.' :: (b ++ '.' :: (c ++ '.' :: d)) ∧ isDecimalOctet a = true ∧
        isDecimalOctet b = true ∧ isDecimalOctet c = true ∧ isDecimalOctet d = true := by
  unfold ipv4Pattern
  simp only [Regex.rep, Regex.matches_seq_iff, Regex.matches_chr_iff, Regex.matches_empty_iff,
    matches_octetPattern_iff_isDecimalOctet]
  constructor
  · rintro ⟨_, d, rfl, ⟨_, _, rfl, ⟨a, _, rfl, ha, rfl⟩, _, _, rfl, ⟨b, _, rfl, hb, rfl⟩,
      _, _, rfl, ⟨c, _, rfl, hc, rfl⟩, rfl⟩, hd⟩
    exact ⟨a, b, c, d, by simp, ha, hb, hc, hd⟩
  · rintro ⟨a, b, c, d, rfl, ha, hb, hc, hd⟩
    exact ⟨a ++ '.' :: (b ++ '.' :: (c ++ ['.'])), d, by simp,
      ⟨a ++ ['.'], b ++ '.' :: (c ++ ['.']), by simp, ⟨a, ['.'], rfl, ha, rfl⟩,
        b ++ ['.'], c ++ ['.'], by simp, ⟨b, ['.'], rfl, hb, rfl⟩,
        c ++ ['.'], [], by simp, ⟨c, ['.'], rfl, hc, rfl⟩, rfl⟩, hd⟩

/-- The first alternative of the `IPAddressStr` pattern accepts the well-formed
dotted quads and nothing else. -/
theorem accepts_ipv4Pattern_iff (l : List Char) :
    ipv4Pattern.accepts l = true ↔ isIPv4DottedQuad l = true := by
  rw [Regex.accepts_iff_matches, matches_ipv4Pattern_iff]
  constructor
  · rintro ⟨a, b, c, d, rfl, ha, hb, hc, hd⟩
    unfold isIPv4DottedQuad
    rw [splitOn_append_sep _ _ _ (dot_not_mem_of_isDecimalOctet a ha),
      splitOn_append_sep _ _ _ (dot_not_mem_of_isDecimalOctet b hb),
      splitOn_append_sep _ _ _ (dot_not_mem_of_isDecimalOctet c hc),
      splitOn_of_not_mem _ _ (dot_not_mem_of_isDecimalOctet d hd)]
    simp [ha, hb, hc, hd]
  · intro h
    unfold isIPv4DottedQuad at h
    split at h
    · rename_i a b c d hs
      simp only [Bool.and_eq_true] at h
      obtain ⟨⟨⟨ha, hb⟩, hc⟩, hd⟩ := h
      obtain ⟨_, h1⟩ := splitOn_cons_inv _ _ _ _ hs
      rcases h1 with ⟨h1, _⟩ | ⟨r1, rfl, hs1⟩
      · cases h1
      obtain ⟨_, h2⟩ := splitOn_cons_inv _ _ _ _ hs1
      rcases h2 with ⟨h2, _⟩ | ⟨r2, rfl, hs2⟩
      · cases h2
      obtain ⟨_, h3⟩ := splitOn_cons_inv _ _ _ _ hs2
      rcases h3 with ⟨h3, _⟩ | ⟨r3, rfl, hs3⟩
      · cases h3
      obtain ⟨_, h4⟩ := splitOn_cons_inv _ _ _ _ hs3
      rcases h4 with ⟨_, rfl⟩ | ⟨r4, rfl, hs4⟩
      · exact ⟨a, b, c, r3, rfl, ha, hb, hc, hd⟩
      · exact absurd hs4 (splitOn_ne_nil _ _)
    · cases h

/-- The dotted quad and the IPv6 forms of the documentation pass the pattern and
are well-formed addresses. -/
theorem validIPAddressStr_addresses :
    (validIPAddressStr "192.0.2.1" = true ∧ isIPv4DottedQuad "192.0.2.1".toList = true) ∧
      (validIPAddressStr "2001:db8::1" = true ∧ isIPv6Address "2001:db8::1".toList = true) ∧
      (validIPAddressStr "1:2:3:4:5:6:7:8" = true ∧
        isIPv6Address "1:2:3:4:5:6:7:8".toList = true) := by
  decide

/-- The alternatives with `(:[0-9A-Fa-f]{1,4}){0,k}` accept a name that ends in a
single colon, which no text form of an IPv6 address does. -/
theorem validIPAddressStr_trailing_colon :
    validIPAddressStr "1::2:" = true ∧ isIPv4DottedQuad "1::2:".toList = false ∧
      isIPv6Address "1::2:".toList = false := by
  decide

/-- C2: the `IPAddressStr` pattern accepts `s::1`, in which the letter `s` stands
before the address `::1`: the accepted value is neither a well-formed dotted
quad nor a well-formed IPv6 address, while `::1` alone is one. -/
theorem validIPAddressStr_accepts_leading_s :
    validIPAddressStr "s::1" = true ∧ isIPv4DottedQuad "s::1".toList = false ∧
      isIPv6Address "s::1".toList = false ∧ isIPv6Address "::1".toList = true := by
  decide

end V1alpha1

/-! ## The lifecycle of `resolutionFailures` -/

namespace V1alpha1

theorem wrapInt32_succ_of_lt_five (x : Int) (h0 : 0 ≤ x) (h5 : x < 5) :
    wrapInt32 (x + 1) = x + 1 := by
  unfold wrapInt32
  omega

/-- One lookup keeps the counter of a stored item between 0 and 4. -/
theorem recordResolution_bound (item item1 : DNSNameResolverStatusItem) (r : Resolution)
    (h0 : 0 ≤ item.resolutionFailures) (h5 : item.resolutionFailures < 5)
    (h : recordResolution item r = some item1) :
    0 ≤ item1.resolutionFailures ∧ item1.resolutionFailures < 5 := by
  cases r with
  | succeeded =>
    simp only [recordResolution, Option.some.injEq] at h
    subst h
    exact ⟨le_refl (0 : Int), show (0 : Int) < 5 by decide⟩
  | failed =>
    simp only [recordResolution, wrapInt32_succ_of_lt_five _ h0 h5] at h
    split at h
    · cases h
    · rename_i hne
      simp only [Option.some.injEq] at h
      subst h
      show 0 ≤ item.resolutionFailures + 1 ∧ item.resolutionFailures + 1 < 5
      omega

/-- Any sequence of lookups keeps the counter of a stored item between 0 and 4. -/
theorem recordResolutions_bound (rs : List Resolution) (item item1 : DNSNameResolverStatusItem)
    (h0 : 0 ≤ item.resolutionFailures) (h5 : item.resolutionFailures < 5)
    (h : recordResolutions (some item) rs = some item1) :
    0 ≤ item1.resolutionFailures ∧ item1.resolutionFailures < 5 := by
  induction rs generalizing item with
  | nil =>
    simp only [recordResolutions, Option.some.injEq] at h
    subst h
    exact ⟨h0, h5⟩
  | cons r rs ih =>
    simp only [recordResolutions] at h
    cases hstep : recordResolution item r with
    | none =>
      rw [hstep] at h
      cases rs <;> simp [recordResolutions] at h
    | some item2 =>
      rw [hstep] at h
      obtain ⟨h0', h5'⟩ := recordResolution_bound item item2 r h0 h5 hstep
      exact ih item2 h0' h5' h

/-- Consecutive failures are counted one by one while the counter stays below 5. -/
theorem recordResolutions_failed_replicate (k : Nat) (item : DNSNameResolverStatusItem)
    (h0 : 0 ≤ item.resolutionFailures) (h5 : item.resolutionFailures + k < 5) :
    recordResolutions (some item) (List.replicate k Resolution.failed) =
      some { item with resolutionFailures := item.resolutionFailures + k } := by
  induction k generalizing item with
  | zero => simp [recordResolutions]
  | succ k ih =>
    have hlt : item.resolutionFailures < 5 := by omega
    have hne : ¬ item.resolutionFailures + 1 = 5 := by omega
    simp only [List.replicate_succ, recordResolutions, recordResolution,
      wrapInt32_succ_of_lt_five _ h0 hlt, if_neg hne]
    rw [ih _ (by show 0 ≤ item.resolutionFailures + 1; omega)
      (by show item.resolutionFailures + 1 + (k : Int) < 5; push_cast at h5; omega)]
    simp only [Option.some.injEq, DNSNameResolverStatusItem.mk.injEq, true_and]
    push_cast
    omega

/-- C3, counterexample: the validation declared for the type accepts an item
whose `resolutionFailures` is 5, so such an item can be stored; a further
failed resolution then makes its counter 6 and does not remove it. -/
theorem resolutionFailures_five_accepted :
    validStatusItem ⟨"example.com.", [⟨"192.0.2.1", 30, some 1700000000⟩], 5⟩ = true ∧
      ¬ (DNSNameResolverStatusItem.resolutionFailures
          ⟨"example.com.", [⟨"192.0.2.1", 30, some 1700000000⟩], 5⟩ < 5) ∧
      (recordResolution ⟨"example.com.", [⟨"192.0.2.1", 30, some 1700000000⟩], 5⟩
          Resolution.failed).map (fun i => i.resolutionFailures) = some 6 := by
  decide

/-- C3: under the documented lifecycle, an item that a successful resolution has
stored, whatever resolutions follow, has a counter between 0 and 4 for as long
as it is stored; up to four consecutive failures are counted one by one, and the
fifth removes the item. -/
theorem resolutionFailures_lt_five_of_stored (dnsName : String)
    (addresses : List DNSNameResolverInfo) :
    (∀ (rs : List Resolution) (item : DNSNameResolverStatusItem),
        recordResolutions (some (storeResolved dnsName addresses)) rs = some item →
          0 ≤ item.resolutionFailures ∧ item.resolutionFailures < 5) ∧
      (∀ k : Nat, k < 5 →
        recordResolutions (some (storeResolved dnsName addresses))
            (List.replicate k Resolution.failed) =
          some { storeResolved dnsName addresses with resolutionFailures := k }) ∧
      recordResolutions (some (storeResolved dnsName addresses))
          (List.replicate 5 Resolution.failed) = none := by
  have hk : ∀ k : Nat, k < 5 →
      recordResolutions (some (storeResolved dnsName addresses))
          (List.replicate k Resolution.failed) =
        some { storeResolved dnsName addresses with resolutionFailures := k } := by
    intro k hk
    rw [recordResolutions_failed_replicate k _ (le_refl (0 : Int))
      (by show (0 : Int) + (k : Int) < 5; omega)]
    simp [storeResolved]
  refine ⟨fun rs item h => ?_, hk, ?_⟩
  · exact recordResolutions_bound rs _ item (le_refl (0 : Int))
      (show (0 : Int) < 5 by decide) h
  · rfl

/-- C3, at the name `example.com.`: after two failures, a success and a failure
the stored counter is 1, after four failures in a row it is 4, and the fifth
failure in a row removes the item. -/
theorem resolutionFailures_lt_five_of_stored_witness :
    recordResolutions (some (storeResolved "example.com." []))
        [Resolution.failed, Resolution.failed, Resolution.succeeded, Resolution.failed] =
        some ⟨"example.com.", [], 1⟩ ∧
      ((0 : Int) ≤ 1 ∧ (1 : Int) < 5) ∧
      recordResolutions (some (storeResolved "example.com." []))
        (List.replicate 4 Resolution.failed) = some ⟨"example.com.", [], 4⟩ ∧
      recordResolutions (some (storeResolved "example.com." []))
        (List.replicate 5 Resolution.failed) = none :=
  have h := resolutionFailures_lt_five_of_stored "example.com." []
  ⟨rfl, h.1 [Resolution.failed, Resolution.failed, Resolution.succeeded, Resolution.failed]
    ⟨"example.com.", [], 1⟩ rfl, h.2.1 4 (by decide), h.2.2⟩

end V1alpha1

/-! ## The `BuildProgress` constants -/

namespace V1alpha1

/-- C5: the six `BuildProgress` constants have the values `Prepared`, `Building`,
`Failed`, `Interrupted`, `Restarted` and `Ready`; the constants
`MachineOSBuildPrepared`, `MachineOSBuildFailed`, `MachineOSBuildInterrupted`
and `MachineOSBuildRestarted` are not among the condition types that the
documentation of `MachineOSBuildStatus.Conditions` lists as valid. -/
theorem buildProgressConstants_values :
    buildProgressConstants =
        ["Prepared", "Building", "Failed", "Interrupted", "Restarted", "Ready"] ∧
      buildProgressConstants ≠ validConditionTypes ∧
      MachineOSBuildPrepared ∉ validConditionTypes ∧
      MachineOSBuildFailed ∉ validConditionTypes ∧
      MachineOSBuildInterrupted ∉ validConditionTypes ∧
      MachineOSBuildRestarted ∉ validConditionTypes ∧
      MachineOSBuiling ∈ validConditionTypes ∧
      MachineOSReady ∈ validConditionTypes := by
  decide

end V1alpha1
